import Mathlib

/-!
# hypertune-go: wrapper layer and codegen CLI

A shallow embedding of `node.go`, `node_types.go`, `options.go` and
`cmd/hypertune-go-gen/main.go`.

The native engine, `encoding/json`, `net/http`, `go/format`, `modfile` and the
file system are collaborators outside the sources; they enter the development
as fields of explicit environment records, so every statement quantifies over
all of their behaviours.  Side effects are recorded as lists of events.
-/

namespace Hypertune

/-! ## Go values -/

/-- Values of the Go floating-point types.  A finite non-zero value is carried
by the rational number it denotes; a `float32` is a `float64` value that also
fits the narrower format, so one carrier serves both. -/
inductive GoFloat where
  | finite (q : ℚ)
  | negZero
  | posInf
  | negInf
  | nan
  deriving DecidableEq

/-- Round the integer `k` to `p` significant bits, ties to even: the value of
an integer-to-float conversion whose target format has a `p`-bit significand
(no `int64` leaves the exponent range of either float format). -/
def roundToPrecision (p : Nat) (k : Int) : Int :=
  let a := k.natAbs
  if a < 2 ^ p then k
  else
    let s := Nat.log2 a + 1 - p
    let q := a / 2 ^ s
    let r := a % 2 ^ s
    let half := 2 ^ (s - 1)
    let m := if half < r ∨ (r = half ∧ q % 2 = 1) then q + 1 else q
    if k < 0 then -((m * 2 ^ s : Nat) : Int) else ((m * 2 ^ s : Nat) : Int)

/-- The conversion `float32(v)` of an integer `v`. -/
def float32OfInt (k : Int) : GoFloat := .finite (roundToPrecision 24 k)

/-- The conversion `float64(v)` of an integer `v`. -/
def float64OfInt (k : Int) : GoFloat := .finite (roundToPrecision 53 k)

/-- The conversion `float64(v)` of a `float32` `v`: widening is exact. -/
def float64OfFloat32 (v : GoFloat) : GoFloat := v

def minInt64 : Int := -(2 ^ 63)
def maxInt64 : Int := 2 ^ 63 - 1
def minInt32 : Int := -(2 ^ 31)
def maxInt32 : Int := 2 ^ 31 - 1

/-- The conversion `int(v)` of a float `v` on the 64-bit targets the package
links against (`arm64`, `amd64`): the fraction is discarded (truncation towards
zero).  When the truncated value does not fit an `int`, or `v` is not finite,
the Go specification leaves the result to the implementation; that result is
the parameter `outOfRange`. -/
def intOfFloat (outOfRange : GoFloat → Int) (v : GoFloat) : Int :=
  match v with
  | .finite q =>
    let t := q.num.tdiv q.den
    if minInt64 ≤ t ∧ t ≤ maxInt64 then t else outOfRange v
  | .negZero => 0
  | _ => outOfRange v

/-- The dynamic content of a Go `any`: the untyped `nil`, the types the typed
accessors switch on, the two container types `encoding/json` decodes into, and
a value of any further type. -/
inductive GoAny where
  | nil
  | bool (b : Bool)
  | int (v : Int)
  | int32 (v : Int)
  | int64 (v : Int)
  | float32 (v : GoFloat)
  | float64 (v : GoFloat)
  | string (s : String)
  | slice (xs : List GoAny)
  | map (kvs : List (String × GoAny))
  | other (typeName : String)

/-- The comparison `v != nil` of an interface value. -/
def GoAny.isNil : GoAny → Bool
  | .nil => true
  | _ => false

/-! ## node.go -/

/-- The `NodeType` enumeration, `iota` order. -/
inductive NodeType where
  | NodeTypeString
  | NodeTypeEnum
  | NodeTypeInt
  | NodeTypeFloat
  | NodeTypeBool
  | NodeTypeObject
  | NodeTypeVoid
  | NodeTypeUnknown
  deriving DecidableEq, Repr

def IsStringNodeType (nodeType : NodeType) : Bool :=
  nodeType == .NodeTypeString || nodeType == .NodeTypeEnum

def IsNumberNodeType (nodeType : NodeType) : Bool :=
  nodeType == .NodeTypeFloat || nodeType == .NodeTypeInt

/-- The `NodeIteratorState` enumeration, `iota` order. -/
inductive NodeIteratorState where
  | NodeIteratorStateMaybeMore
  | NodeIteratorStateConsumed
  deriving DecidableEq, Repr

/-- The C struct `SizedString` of `lib/hypertune.h` (the header is not among the
sources): a fixed byte array and the count of bytes in use.  The count never
exceeds the array, which is what makes the slice `bytes[:length]` legal. -/
structure SizedString where
  bytes : List Nat
  length : Nat
  length_le : length ≤ bytes.length

/-- The C struct `NodeResult`. -/
structure NodeResult where
  id : Nat
  error : Bool
  type : NodeType
  enum_value : SizedString
  object_type_name : SizedString

/-- The C struct `NodeIteratorResult`. -/
structure NodeIteratorResult where
  id : Nat
  error : Bool

/-- The C struct returned by `node_iterator_next`. -/
structure NodeIteratorNextResult where
  state : NodeIteratorState
  error : Bool
  node : NodeResult

/-- The C struct returned by `node_evaluate`: `value` is `none` for the null
pointer, otherwise the bytes stored at the pointer. -/
structure EvaluateResult where
  error : Bool
  value : Option (List Nat)
  length : Nat

/-- The Go struct `Node`.  The two optional strings are kept as their bytes. -/
structure Node where
  handle : Nat
  error : Bool
  type : NodeType
  EnumValue : Option (List Nat)
  ObjectTypeName : Option (List Nat)
  deriving DecidableEq

def readSizedString (str : SizedString) : Option (List Nat) :=
  if str.length = 0 then none
  else some (str.bytes.take str.length)

/-- The function `newNode`; the finalizer it registers only runs at garbage
collection and is not part of the model. -/
def newNode (result : NodeResult) : Node :=
  let props : Node :=
    { handle := result.id, error := result.error, type := result.type,
      EnumValue := none, ObjectTypeName := none }
  if !props.error then
    { props with
      EnumValue := readSizedString result.enum_value
      ObjectTypeName := readSizedString result.object_type_name }
  else props

/-- The entry points of the native library that the modelled functions call.
The engine keeps its own state `σ`; only the cursor call is modelled as
changing it. -/
structure Native (σ : Type) where
  node_evaluate : σ → Nat → EvaluateResult
  node_get_field : σ → Nat → String → String → NodeResult
  node_get_items : σ → Nat → NodeIteratorResult
  node_iterator_next : σ → Nat → NodeIteratorNextResult × σ

/-- The parts of `encoding/json` the wrapper calls. -/
structure Json where
  Unmarshal : List Nat → Except String GoAny
  Marshal : GoAny → Except String String

/-- The method `Node.Evaluate`; `(nil, err)` is `.error`, `(v, nil)` is `.ok v`. -/
def Node.Evaluate {σ : Type} (c : Native σ) (json : Json) (s : σ) (n : Node) :
    Except String GoAny :=
  let result := c.node_evaluate s n.handle
  if result.error then .error "evaluation error"
  else
    match result.value with
    | none => .ok .nil
    | some buf =>
      if result.length = 0 then .ok .nil
      else
        match json.Unmarshal (buf.take result.length) with
        | .error err => .error err
        | .ok parsed => .ok parsed

/-- One call of `Node.LogUnexpectedValueError`, with the node's handle and the
Go value passed to it. -/
structure LogCall where
  handle : Nat
  value : GoAny

/-! ## node_types.go -/

/-- The method `BoolNode.Get`: the value returned and the value-error log calls
made, in order. -/
def BoolNode.Get {σ : Type} (c : Native σ) (json : Json) (s : σ) (node : Node)
    (fallback : Bool) : Bool × List LogCall :=
  match node.Evaluate c json s with
  | .error _ => (fallback, [])
  | .ok result =>
    match result with
    | .bool boolVal => (boolVal, [])
    | _ => (fallback, [⟨node.handle, result⟩])

/-- The method `IntNode.Get`. -/
def IntNode.Get {σ : Type} (c : Native σ) (json : Json) (outOfRange : GoFloat → Int)
    (s : σ) (node : Node) (fallback : Int) : Int × List LogCall :=
  match node.Evaluate c json s with
  | .error _ => (fallback, [])
  | .ok result =>
    match result with
    | .int v => (v, [])
    | .int32 v => (v, [])
    | .float32 v => (intOfFloat outOfRange v, [])
    | .int64 v => (v, [])
    | .float64 v => (intOfFloat outOfRange v, [])
    | _ => (fallback, [⟨node.handle, result⟩])

/-- The method `FloatNode.Get`. -/
def FloatNode.Get {σ : Type} (c : Native σ) (json : Json) (s : σ) (node : Node)
    (fallback : GoFloat) : GoFloat × List LogCall :=
  match node.Evaluate c json s with
  | .error _ => (fallback, [])
  | .ok result =>
    match result with
    | .float64 v => (v, [])
    | .int v => (float64OfInt v, [])
    | .int32 v => (float64OfInt v, [])
    | .float32 v => (float64OfFloat32 v, [])
    | .int64 v => (float64OfInt v, [])
    | _ => (fallback, [⟨node.handle, result⟩])

/-- The method `StringNode.Get`; on a failed assertion `strVal` is the empty
string, and that is what is passed to the log call. -/
def StringNode.Get {σ : Type} (c : Native σ) (json : Json) (s : σ) (node : Node)
    (fallback : String) : String × List LogCall :=
  match node.Evaluate c json s with
  | .error _ => (fallback, [])
  | .ok result =>
    match result with
    | .string strVal => (strVal, [])
    | _ => (fallback, [⟨node.handle, .string ""⟩])

/-- The method `VoidNode.Get`: it returns nothing, so only the log calls. -/
def VoidNode.Get {σ : Type} (c : Native σ) (json : Json) (s : σ) (node : Node) :
    List LogCall :=
  match node.Evaluate c json s with
  | .error _ => []
  | .ok result =>
    let (boolVal, ok) := match result with
      | .bool b => (b, true)
      | _ => (false, false)
    if ok && boolVal then []
    else [⟨node.handle, .bool boolVal⟩]

/-- The method `EnumNode.Get` at `T = string`. -/
def EnumNode.Get {σ : Type} (c : Native σ) (json : Json) (s : σ)
    (allowedValues : List String) (node : Node) (fallback : String) :
    String × List LogCall :=
  match node.Evaluate c json s with
  | .error _ => (fallback, [])
  | .ok result =>
    let (strVal, ok) := match result with
      | .string v => (v, true)
      | _ => ("", false)
    if !ok || strVal == "" || !allowedValues.contains strVal then
      (fallback, [⟨node.handle, .string strVal⟩])
    else (strVal, [])

/-! ## node.go: navigation and iteration -/

/-- How a Go call ends: it returns, or it panics with a message. -/
inductive Outcome (α : Type) where
  | ret (a : α)
  | panic (msg : String)

/-- The method `Node.GetFieldWithJSONArguments`. -/
def Node.GetFieldWithJSONArguments {σ : Type} (c : Native σ) (s : σ) (n : Node)
    (field : String) (argumentsJSON : String) : Node :=
  newNode (c.node_get_field s n.handle field argumentsJSON)

/-- The method `Node.GetField`. -/
def Node.GetField {σ : Type} (c : Native σ) (json : Json) (s : σ) (n : Node)
    (field : String) (arguments : GoAny) : Outcome Node :=
  match json.Marshal arguments with
  | .error err =>
    .panic ("failed to field marshal arguments for field " ++ field ++ ": " ++ err)
  | .ok argumentsJSON => .ret (n.GetFieldWithJSONArguments c s field argumentsJSON)

/-- The `for` loop of `newNodeIterator`.  The consumer `yield` threads its own
state `κ` and answers whether to go on.  Each turn of the loop costs one unit
of `fuel`; `none` means the fuel ran out before the loop returned. -/
def newNodeIterator.loop {σ κ : Type} (c : Native σ) (id : Nat)
    (yield : κ → Node → κ × Bool) : Nat → σ → κ → Option (σ × κ)
  | 0, _, _ => none
  | fuel + 1, s, k =>
    let (next_result, s') := c.node_iterator_next s id
    if next_result.state = .NodeIteratorStateConsumed then some (s', k)
    else if next_result.error then some (s', k)
    else
      let (k', more) := yield k (newNode next_result.node)
      if !more then some (s', k')
      else newNodeIterator.loop c id yield fuel s' k'

/-- The sequence `newNodeIterator` returns, run against a consumer. -/
def newNodeIterator {σ κ : Type} (c : Native σ) (iterator : NodeIteratorResult)
    (yield : κ → Node → κ × Bool) (fuel : Nat) (s : σ) (k : κ) : Option (σ × κ) :=
  if iterator.error then some (s, k)
  else newNodeIterator.loop c iterator.id yield fuel s k

/-- The method `Node.GetItems`, run against a consumer. -/
def Node.GetItems {σ κ : Type} (c : Native σ) (n : Node)
    (yield : κ → Node → κ × Bool) (fuel : Nat) (s : σ) (k : κ) : Option (σ × κ) :=
  newNodeIterator c (c.node_get_items s n.handle) yield fuel s k

/-- The consumer that never stops early and keeps what it is given, in order. -/
def collect (acc : List Node) (n : Node) : List Node × Bool := (acc ++ [n], true)

/-- The engine state before the `i`-th call (from 0) of `node_iterator_next` on
cursor `id`, when nothing else touches the engine. -/
def cursorState {σ : Type} (c : Native σ) (id : Nat) (s : σ) : Nat → σ
  | 0 => s
  | i + 1 => cursorState c id (c.node_iterator_next s id).2 i

/-- The result of the `i`-th call (from 0) of `node_iterator_next` on cursor `id`. -/
def cursorResult {σ : Type} (c : Native σ) (id : Nat) (s : σ) (i : Nat) :
    NodeIteratorNextResult :=
  (c.node_iterator_next (cursorState c id s i) id).1

/-- A next-result that ends the iteration: consumed, or error-flagged. -/
def NodeIteratorNextResult.ends (r : NodeIteratorNextResult) : Bool :=
  r.state == .NodeIteratorStateConsumed || r.error

/-! ## options.go -/

/-- The constant `language` of `sdk.go`. -/
def language : String := "go"

/-- The type `time.Duration`: a count of nanoseconds. -/
abbrev Duration := Int

/-- The constant `time.Millisecond`. -/
def Millisecond : Duration := 1000000

structure sdkOptions where
  BranchName : Option String := none
  InitDataRefreshInterval : Option Duration := none
  LogsFlushInterval : Option Duration := none
  EdgeBaseURL : Option String := none
  RemoteLoggingBaseURL : Option String := none

/-- The Go type `Option = func(*sdkOptions)`. -/
abbrev SdkOption := sdkOptions → sdkOptions

def WithBranchName (branchName : String) : SdkOption :=
  fun options => { options with BranchName := some branchName }

def WithInitDataRefreshInterval (interval : Duration) : SdkOption :=
  fun options => { options with InitDataRefreshInterval := some interval }

def WithLogsFlushInterval (interval : Duration) : SdkOption :=
  fun options => { options with LogsFlushInterval := some interval }

def WithEdgeBaseURL (url : String) : SdkOption :=
  fun options => { options with EdgeBaseURL := some url }

def WithRemoteLoggingBaseURL (baseUrl : String) : SdkOption :=
  fun options => { options with RemoteLoggingBaseURL := some baseUrl }

/-- The values stored in the configuration map: strings and durations. -/
inductive ConfigValue where
  | string (s : String)
  | duration (d : Duration)
  deriving DecidableEq

/-- A Go `map[string]any` restricted to configuration values, as an association
list with at most one entry per key. -/
abbrev ConfigMap := List (String × ConfigValue)

/-- The assignment `m[key] = value`. -/
def ConfigMap.set : ConfigMap → String → ConfigValue → ConfigMap
  | [], key, value => [(key, value)]
  | (k, v) :: rest, key, value =>
    if k = key then (k, value) :: rest
    else (k, v) :: ConfigMap.set rest key value

/-- The lookup `m[key]`, `none` when the key is absent. -/
def ConfigMap.get : ConfigMap → String → Option ConfigValue
  | [], _ => none
  | (k, v) :: rest, key => if k = key then some v else ConfigMap.get rest key

/-- Division of two `int64` values, as `/` on `time.Duration`: the quotient
truncated towards zero (the divisor here is never `-1`, so it cannot wrap). -/
def Duration.div (a b : Duration) : Duration := Int.tdiv a b

def parseOptions (opts : List SdkOption) : ConfigMap :=
  let options := opts.foldl (fun options option => option options) ({} : sdkOptions)
  let configMap : ConfigMap := [("language", .string language)]
  let configMap := match options.BranchName with
    | some v => configMap.set "branch_name" (.string v)
    | none => configMap
  let configMap := match options.InitDataRefreshInterval with
    | some v => configMap.set "init_data_refresh_interval_ms" (.duration (Duration.div v Millisecond))
    | none => configMap
  let configMap := match options.LogsFlushInterval with
    | some v => configMap.set "logs_flush_interval_ms" (.duration (Duration.div v Millisecond))
    | none => configMap
  let configMap := match options.EdgeBaseURL with
    | some v => configMap.set "edge_base_url" (.string v)
    | none => configMap
  let configMap := match options.RemoteLoggingBaseURL with
    | some v => configMap.set "remote_logging_base_url" (.string v)
    | none => configMap
  configMap

/-- A call of one of the five exported option constructors. -/
inductive WithCall where
  | branchName (branchName : String)
  | initDataRefreshInterval (interval : Duration)
  | logsFlushInterval (interval : Duration)
  | edgeBaseURL (url : String)
  | remoteLoggingBaseURL (baseUrl : String)

/-- The option a constructor call evaluates to. -/
def WithCall.toOption : WithCall → SdkOption
  | .branchName v => WithBranchName v
  | .initDataRefreshInterval v => WithInitDataRefreshInterval v
  | .logsFlushInterval v => WithLogsFlushInterval v
  | .edgeBaseURL v => WithEdgeBaseURL v
  | .remoteLoggingBaseURL v => WithRemoteLoggingBaseURL v

/-- The argument of the last call in `calls` that `pick` selects, if any. -/
def lastArg {α : Type} (pick : WithCall → Option α) (calls : List WithCall) : Option α :=
  calls.reverse.findSome? pick

def WithCall.branchName? : WithCall → Option String
  | .branchName v => some v
  | _ => none

def WithCall.initDataRefreshInterval? : WithCall → Option Duration
  | .initDataRefreshInterval v => some v
  | _ => none

def WithCall.logsFlushInterval? : WithCall → Option Duration
  | .logsFlushInterval v => some v
  | _ => none

def WithCall.edgeBaseURL? : WithCall → Option String
  | .edgeBaseURL v => some v
  | _ => none

def WithCall.remoteLoggingBaseURL? : WithCall → Option String
  | .remoteLoggingBaseURL v => some v
  | _ => none

end Hypertune

/-! ## cmd/hypertune-go-gen/main.go -/

namespace Gen

open Hypertune (GoAny)

def hypertuneGoPath : String := "github.com/hypertunehq/hypertune-go"

/-- The package-level variables the flags are bound to. -/
structure Flags where
  edgeBaseURL : String := "https://edge.hypertune.com"
  sdkVersion : String := ""
  outputFileDir : String := "generated"
  queryFilePath : String := ""
  token : String := ""
  branchName : String := "main"
  packageName : String := "hypertune"
  includeToken : Bool := false
  includeInitData : Bool := false
  deriving DecidableEq

structure CodegenFile where
  Name : String
  Content : String

structure CodegenMessage where
  Level : String
  Message : String
  Metadata : GoAny

structure CodegenResponse where
  Files : List CodegenFile
  Messages : List CodegenMessage

/-- The map `doCodegenRequest` encodes as the request body, key by key. -/
structure CodegenBody where
  sdkType : String
  language : String
  query : Option String
  includeToken : Bool
  includeFallback : Bool
  sdkVersion : String
  packageName : String
  deriving DecidableEq

/-- The GET request `doCodegenRequest` builds: the parsed edge URL with its path
set to `/codegen` and the query parameters `body`, `token` and `branch` set.
`token` and `branch` are the values stored under those keys (`Values.Encode`
then escapes every value once more for the wire, which the server undoes);
`body` is the map whose JSON text, query-escaped, is stored under `body`. -/
structure CodegenRequest where
  edgeBaseURL : String
  path : String
  body : CodegenBody
  token : String
  branch : String
  deriving DecidableEq

/-- What `os.ReadFile` returns: the data (`none` for a nil slice) and the error
(`none` for nil).  Go does not tie the two together. -/
structure ReadResult where
  data : Option String
  err : Option String

/-- The pair `(Mod.Path, Mod.Version)` of a `modfile.Require`. -/
structure Require where
  Path : String
  Version : String

/-- The part of `modfile.File` that is read. -/
structure ModFile where
  Require : List Require

/-- How the HTTP exchange of `doCodegenRequest` ends: the request cannot be
built, the round trip fails, or a response arrives with a status code and a body. -/
inductive HttpOutcome where
  | initError (err : String)
  | doError (err : String)
  | response (StatusCode : Nat) (Body : String)

/-- The world around the command: working directory, file system, libraries and
the codegen service.  Directories on the upward search are absolute cleaned
Unix paths, kept as their list of components (`[]` is `/`). -/
structure Env where
  Getwd : Except String (List String)
  ReadFile : String → ReadResult
  modfileParse : String → Except String ModFile
  urlParse : String → Option String
  http : CodegenRequest → HttpOutcome
  decodeResponse : String → Except String CodegenResponse
  MkdirAll : String → Option String
  formatSource : String → Except String String
  filepathJoin : String → String → String
  WriteFile : String → String → Option String
  MarshalIndent : GoAny → Except String String

/-- The observable actions of the command, in the order they happen. -/
inductive Effect where
  | readFile (path : String)
  | httpGet (req : CodegenRequest)
  | mkdirAll (dir : String)
  | writeFile (path : String) (content : String)
  | print (text : String)
  deriving DecidableEq

/-- The text of an absolute path given by its components. -/
def pathString (dir : List String) : String :=
  "/" ++ "/".intercalate dir

/-- The call `filepath.Join(dir, "go.mod")` for a directory given innermost
component first. -/
def goModPath (rev : List String) : String :=
  pathString (rev.reverse ++ ["go.mod"])

/-- The call `strings.TrimPrefix(s, "v")`. -/
def trimPrefixV (s : String) : String :=
  match s.data with
  | 'v' :: rest => String.mk rest
  | _ => s

/-- The search loop of `parseSdkVersion`, `for dir != "/"`.  The directory is
given innermost component first, so `filepath.Dir` is the tail and `/` is `[]`.
`fileContent` is the variable of that name as the loop is entered.  The result
is the reads made, the final `dir` and the final `fileContent`. -/
def searchGoMod (env : Env) : List String → Option String →
    List Effect × List String × Option String
  | [], fileContent => ([], [], fileContent)
  | x :: parent, _ =>
    let path := goModPath (x :: parent)
    let r := env.ReadFile path
    match r.err with
    | none => ([.readFile path], x :: parent, r.data)
    | some _ =>
      let (effects, dir, fileContent) := searchGoMod env parent r.data
      (.readFile path :: effects, dir, fileContent)

/-- The function `parseSdkVersion`: the reads it makes, and either the error it
returns or the flags after it (only `sdkVersion` is ever assigned). -/
def parseSdkVersion (env : Env) (flags : Flags) : List Effect × Except String Flags :=
  if flags.sdkVersion ≠ "" then ([], .ok flags)
  else
    match env.Getwd with
    | .error err => ([], .error ("failed to get current working directory: " ++ err))
    | .ok wd =>
      let (effects, dir, fileContent) := searchGoMod env wd.reverse none
      match fileContent with
      | none => (effects, .error "go.mod file not found please run the command from a directory containing go.mod file or specify --sdkVersion manually")
      | some content =>
        match env.modfileParse content with
        | .error err => (effects, .error ("failed to parse go.mod file: " ++ err))
        | .ok mod =>
          match mod.Require.find? (fun r => r.Path == hypertuneGoPath) with
          | none =>
            (effects, .error (goModPath dir ++ " doesn't contain " ++ hypertuneGoPath ++ " package"))
          | some r => (effects, .ok { flags with sdkVersion := trimPrefixV r.Version })

/-- The bytes of the UTF-8 encoding of a character. -/
def utf8Bytes (c : Char) : List Nat :=
  let n := c.toNat
  if n < 128 then [n]
  else if n < 2048 then [192 + n / 64, 128 + n % 64]
  else if n < 65536 then [224 + n / 4096, 128 + n / 64 % 64, 128 + n % 64]
  else [240 + n / 262144, 128 + n / 4096 % 64, 128 + n / 64 % 64, 128 + n % 64]

/-- The test `shouldEscape(c, encodeQueryComponent)` of `net/url` on a byte:
letters, digits and `-`, `_`, `.`, `~` are kept, every other byte is escaped. -/
def shouldEscape (b : Nat) : Bool :=
  if (97 ≤ b ∧ b ≤ 122) ∨ (65 ≤ b ∧ b ≤ 90) ∨ (48 ≤ b ∧ b ≤ 57) then false
  else if b = 45 ∨ b = 95 ∨ b = 46 ∨ b = 126 then false
  else true

/-- The digit of `upperhex` at index `n`. -/
def upperhex (n : Nat) : Char := "0123456789ABCDEF".data.getD n '0'

/-- What `url.QueryEscape` writes for one byte: the byte itself, `+` for a
space, or `%` and two upper-case hexadecimal digits. -/
def escapeByte (b : Nat) : List Char :=
  if shouldEscape b then
    if b = 32 then ['+'] else ['%', upperhex (b / 16), upperhex (b % 16)]
  else [Char.ofNat b]

/-- The function `url.QueryEscape`, on text. -/
def QueryEscape (s : String) : String :=
  String.mk ((s.data.map (fun c => ((utf8Bytes c).map escapeByte).flatten)).flatten)

/-- The request `doCodegenRequest` builds from the flags, the parsed edge URL
and the optional query text. -/
def codegenRequest (flags : Flags) (codegenUrl : String) (query : Option String) :
    CodegenRequest :=
  { edgeBaseURL := codegenUrl
    path := "/codegen"
    body :=
      { sdkType := "go", language := "go", query := query,
        includeToken := flags.includeToken, includeFallback := flags.includeInitData,
        sdkVersion := flags.sdkVersion, packageName := flags.packageName }
    token := QueryEscape flags.token
    branch := flags.branchName }

/-- The function `doCodegenRequest`. -/
def doCodegenRequest (env : Env) (flags : Flags) (codegenUrl : String)
    (query : Option String) : List Effect × Except String CodegenResponse :=
  let req := codegenRequest flags codegenUrl query
  match env.http req with
  | .initError err => ([], .error ("failed to initialize codegen request: " ++ err))
  | .doError err => ([.httpGet req], .error ("failed to make codegen request: " ++ err))
  | .response StatusCode Body =>
    if StatusCode ≠ 200 then
      ([.httpGet req], .error ("codegen request failed with code: " ++ toString StatusCode ++
        " and response: " ++ Body))
    else
      match env.decodeResponse Body with
      | .error err => ([.httpGet req], .error ("failed to decode codegen response: " ++ err))
      | .ok response => ([.httpGet req], .ok response)

/-- The scan of `filepath.Ext`, from the last character backwards: `acc` is
the suffix already passed. -/
def extScan : List Char → List Char → List Char
  | [], _ => []
  | c :: before, acc =>
    if c = '/' then []
    else if c = '.' then '.' :: acc
    else extScan before (c :: acc)

/-- The call `filepath.Ext(path)`. -/
def filepathExt (path : String) : String :=
  String.mk (extScan path.data.reverse [])

/-- The loop of `run` over `response.Files`. -/
def writeFiles (env : Env) (flags : Flags) : List CodegenFile → List Effect × Option String
  | [] => ([], none)
  | fileResp :: rest =>
    let content :=
      if filepathExt fileResp.Name = ".go" then
        match env.formatSource fileResp.Content with
        | .ok formattedContent => formattedContent
        | .error _ => fileResp.Content
      else fileResp.Content
    let filePath := env.filepathJoin flags.outputFileDir fileResp.Name
    match env.WriteFile filePath content with
    | some err =>
      ([.writeFile filePath content],
        some ("failed to write file " ++ fileResp.Name ++ ": " ++ err))
    | none =>
      let (effects, err) := writeFiles env flags rest
      (.writeFile filePath content :: .print ("Created file " ++ filePath ++ "\n") :: effects, err)

/-- The text one turn of the loop of `run` over `response.Messages` prints. -/
def messageLine (env : Env) (message : CodegenMessage) : String :=
  if !message.Metadata.isNil then
    let meta := match env.MarshalIndent message.Metadata with
      | .ok text => text
      | .error _ => ""
    message.Level ++ " " ++ message.Level ++ " " ++ meta ++ "\n"
  else
    message.Level ++ " " ++ message.Level ++ "\n"

/-- The function `run`: what it does, and the error it returns (`none` for nil). -/
def run (env : Env) (flags : Flags) : List Effect × Option String :=
  if flags.outputFileDir = "" then ([], some "outputFileDir must be specified")
  else if flags.packageName = "" then ([], some "packageName must be specified")
  else
    match parseSdkVersion env flags with
    | (e1, .error err) => (e1, some ("failed to parse sdk version: " ++ err))
    | (e1, .ok flags) =>
      let queryRead : List Effect × Except String (Option String) :=
        if flags.queryFilePath ≠ "" then
          let r := env.ReadFile flags.queryFilePath
          match r.err with
          | some err => ([.readFile flags.queryFilePath], .error err)
          | none => ([.readFile flags.queryFilePath], .ok (some (r.data.getD "")))
        else ([], .ok none)
      match queryRead with
      | (e2, .error err) => (e1 ++ e2, some ("failed to read query file: " ++ err))
      | (e2, .ok query) =>
        match env.urlParse flags.edgeBaseURL with
        | some err => (e1 ++ e2, some ("failed to parse edgeBaseURL: " ++ err))
        | none =>
          match doCodegenRequest env flags flags.edgeBaseURL query with
          | (e3, .error err) => (e1 ++ e2 ++ e3, some err)
          | (e3, .ok response) =>
            match env.MkdirAll flags.outputFileDir with
            | some err =>
              (e1 ++ e2 ++ e3 ++ [.mkdirAll flags.outputFileDir],
                some ("failed to create output directory: " ++ err))
            | none =>
              match writeFiles env flags response.Files with
              | (e4, some err) =>
                (e1 ++ e2 ++ e3 ++ [.mkdirAll flags.outputFileDir] ++ e4, some err)
              | (e4, none) =>
                (e1 ++ e2 ++ e3 ++ [.mkdirAll flags.outputFileDir] ++ e4 ++
                  response.Messages.map (fun message => .print (messageLine env message)), none)

end Gen

/-! ## Sample collaborators -/

namespace Hypertune

/-- A sized string holding the given bytes, all in use. -/
def sizedOf (bytes : List Nat) : SizedString :=
  { bytes := bytes, length := bytes.length, length_le := Nat.le_refl _ }

/-- A node result with the given handle and error flag, no enum literal and no
object type name. -/
def plainResult (id : Nat) (error : Bool) : NodeResult :=
  { id := id, error := error, type := .NodeTypeUnknown,
    enum_value := sizedOf [], object_type_name := sizedOf [] }

/-- A consumed next-result. -/
def consumedResult : NodeIteratorNextResult :=
  { state := .NodeIteratorStateConsumed, error := false, node := plainResult 0 false }

/-- An engine whose state counts the cursor calls made: every evaluation yields
`r`, and the cursor delivers nodes `0`, `1` and so on up to `n - 1`, then
reports consumption. -/
def sampleNative (r : EvaluateResult) (n : Nat) : Native Nat :=
  { node_evaluate := fun _ _ => r
    node_get_field := fun _ _ _ _ => plainResult 1 false
    node_get_items := fun _ _ => { id := 0, error := false }
    node_iterator_next := fun s _ =>
      if s < n then
        ({ state := .NodeIteratorStateMaybeMore, error := false, node := plainResult s false }, s + 1)
      else (consumedResult, s + 1) }

/-- A decoder that yields `v` for every text, and an encoder that rejects
functions, as `encoding/json` does (`json: unsupported type`). -/
def sampleJson (v : GoAny) : Json :=
  { Unmarshal := fun _ => .ok v
    Marshal := fun a =>
      match a with
      | .other "func()" => .error "json: unsupported type: func()"
      | _ => .ok "null" }

/-- A decoder that rejects every text. -/
def rejectingJson : Json :=
  { Unmarshal := fun _ => .error "invalid character"
    Marshal := fun _ => .ok "null" }

/-- An evaluate result carrying two bytes of text. -/
def someText : EvaluateResult := { error := false, value := some [55, 32], length := 1 }

/-- An evaluate result with the error flag set. -/
def failedResult : EvaluateResult := { error := true, value := none, length := 0 }

/-- A node with handle 3. -/
def sampleNode : Node :=
  { handle := 3, error := false, type := .NodeTypeUnknown, EnumValue := none,
    ObjectTypeName := none }

end Hypertune

namespace Gen

/-- A world for the command: the working directory is `/home/app/cmd`, the only
readable file is `/home/app/go.mod`, whose parse holds two requirements, this
SDK at `v1.2.3` among them; the service answers 200 with no file and one
warning that carries no metadata. -/
def sampleEnv : Env :=
  { Getwd := .ok ["home", "app", "cmd"]
    ReadFile := fun path =>
      if path = "/home/app/go.mod" then { data := some "module app", err := none }
      else { data := none, err := some "no such file or directory" }
    modfileParse := fun _ =>
      .ok { Require := [⟨"github.com/urfave/cli/v3", "v3.0.0"⟩, ⟨hypertuneGoPath, "v1.2.3"⟩] }
    urlParse := fun _ => none
    http := fun _ => .response 200 "{}"
    decodeResponse := fun _ =>
      .ok { Files := [],
            Messages := [{ Level := "Warn", Message := "flag is deprecated", Metadata := .nil }] }
    MkdirAll := fun _ => none
    formatSource := fun src => .ok src
    filepathJoin := fun dir name => dir ++ "/" ++ name
    WriteFile := fun _ _ => none
    MarshalIndent := fun _ => .ok "{}" }

/-- The same world, except that the parsed `go.mod` does not require this SDK. -/
def foreignEnv : Env :=
  { sampleEnv with
    modfileParse := fun _ => .ok { Require := [⟨"github.com/urfave/cli/v3", "v3.0.0"⟩] } }

/-- A world in which no read succeeds: the working directory is `/app`, and
reading `/app/go.mod` fails with an input/output error after delivering the
bytes read so far, which hold a requirement of this SDK at `v9.9.9`. -/
def staleEnv : Env :=
  { sampleEnv with
    Getwd := .ok ["app"]
    ReadFile := fun path =>
      if path = "/app/go.mod" then
        { data := some "require github.com/hypertunehq/hypertune-go v9.9.9",
          err := some "read /app/go.mod: input/output error" }
      else { data := none, err := some "no such file or directory" }
    modfileParse := fun content =>
      if content = "require github.com/hypertunehq/hypertune-go v9.9.9" then
        .ok { Require := [⟨hypertuneGoPath, "v9.9.9"⟩] }
      else .error "malformed go.mod" }

/-- The flags as the command line leaves them when only `--token` is given. -/
def sampleFlags : Flags := { token := "tok" }

end Gen

/-! ## Typed accessors -/

namespace Hypertune

theorem Evaluate_error_iff {σ : Type} (c : Native σ) (json : Json) (s : σ) (n : Node) :
    (∃ err, n.Evaluate c json s = .error err) ↔
      ((c.node_evaluate s n.handle).error = true ∨
        ∃ buf err, (c.node_evaluate s n.handle).value = some buf ∧
          (c.node_evaluate s n.handle).length ≠ 0 ∧
          json.Unmarshal (buf.take (c.node_evaluate s n.handle).length) = .error err) := by
  unfold Node.Evaluate
  cases hr : c.node_evaluate s n.handle with
  | mk error value length =>
    cases error <;> cases value <;> simp
    rename_i buf
    by_cases hl : length = 0
    · simp [hl]
    · simp only [hl, if_false]
      cases hu : json.Unmarshal (List.take length buf) <;> simp

theorem roundToPrecision_of_lt (p : Nat) (k : Int) (h : k.natAbs < 2 ^ p) :
    roundToPrecision p k = k := by
  simp [roundToPrecision, h]

theorem natAbs_lt_of_int32 (k : Int) (hlo : minInt32 ≤ k) (hhi : k ≤ maxInt32) :
    k.natAbs < 2 ^ 53 := by
  unfold minInt32 at hlo
  unfold maxInt32 at hhi
  omega

theorem intOfFloat_intCast (outOfRange : GoFloat → Int) (k : Int)
    (hlo : minInt64 ≤ k) (hhi : k ≤ maxInt64) :
    intOfFloat outOfRange (.finite (k : ℚ)) = k := by
  simp [intOfFloat, Rat.num_intCast, Rat.den_intCast, hlo, hhi]

/-- C1: when the evaluation of the node fails (the native error flag is set, or
the bytes are not valid JSON), each of the Bool, Int, Float, String and Enum
accessors returns exactly the fallback it was given, and logs nothing. -/
theorem get_returns_fallback_on_failure {σ : Type} (c : Native σ) (json : Json)
    (outOfRange : GoFloat → Int) (s : σ) (node : Node) (allowedValues : List String)
    (fb : Bool) (fi : Int) (ff : GoFloat) (fs fe : String)
    (hfail : (c.node_evaluate s node.handle).error = true ∨
      ∃ buf err, (c.node_evaluate s node.handle).value = some buf ∧
        (c.node_evaluate s node.handle).length ≠ 0 ∧
        json.Unmarshal (buf.take (c.node_evaluate s node.handle).length) = .error err) :
    BoolNode.Get c json s node fb = (fb, []) ∧
    IntNode.Get c json outOfRange s node fi = (fi, []) ∧
    FloatNode.Get c json s node ff = (ff, []) ∧
    StringNode.Get c json s node fs = (fs, []) ∧
    EnumNode.Get c json s allowedValues node fe = (fe, []) := by
  obtain ⟨err, he⟩ := (Evaluate_error_iff c json s node).mpr hfail
  simp [BoolNode.Get, IntNode.Get, FloatNode.Get, StringNode.Get, EnumNode.Get, he]

theorem get_returns_fallback_on_failure_flag :
    BoolNode.Get (sampleNative failedResult 0) rejectingJson 0 sampleNode true = (true, []) ∧
    IntNode.Get (sampleNative failedResult 0) rejectingJson (fun _ => 0) 0 sampleNode 5 = (5, []) ∧
    FloatNode.Get (sampleNative failedResult 0) rejectingJson 0 sampleNode .nan = (.nan, []) ∧
    StringNode.Get (sampleNative failedResult 0) rejectingJson 0 sampleNode "x" = ("x", []) ∧
    EnumNode.Get (sampleNative failedResult 0) rejectingJson 0 ["A"] sampleNode "A" = ("A", []) :=
  get_returns_fallback_on_failure (sampleNative failedResult 0) rejectingJson (fun _ => 0) 0
    sampleNode ["A"] true 5 .nan "x" "A" (Or.inl rfl)

/-- C2: for an integer `k` that fits `int32` and is exact in `float32` (so it is
representable in all five numeric forms), whenever evaluation succeeds with `k`
decoded as `int`, `int32`, `float32`, `int64` or `float64`, `IntNode.Get`
returns `k` and `FloatNode.Get` returns the float of value `k`, both without a
log call; when evaluation succeeds with a boolean or a string, both return the
fallback and make exactly one value-error log call. -/
theorem numeric_get_accepts_five_forms {σ : Type} (c : Native σ) (json : Json)
    (outOfRange : GoFloat → Int) (s : σ) (node : Node) (k fi : Int) (ff : GoFloat)
    (v : GoAny) (hlo : minInt32 ≤ k) (hhi : k ≤ maxInt32)
    (hexact : roundToPrecision 24 k = k) (heval : node.Evaluate c json s = .ok v) :
    (v ∈ [GoAny.int k, .int32 k, .float32 (float32OfInt k), .int64 k,
        .float64 (float64OfInt k)] →
      IntNode.Get c json outOfRange s node fi = (k, []) ∧
      FloatNode.Get c json s node ff = (GoFloat.finite (k : ℚ), [])) ∧
    ((∃ b, v = .bool b) ∨ (∃ str, v = .string str) →
      IntNode.Get c json outOfRange s node fi = (fi, [⟨node.handle, v⟩]) ∧
      FloatNode.Get c json s node ff = (ff, [⟨node.handle, v⟩])) := by
  have h53 : roundToPrecision 53 k = k :=
    roundToPrecision_of_lt 53 k (natAbs_lt_of_int32 k hlo hhi)
  have h64 : intOfFloat outOfRange (.finite (k : ℚ)) = k := by
    apply intOfFloat_intCast
    · unfold minInt32 at hlo; unfold minInt64; omega
    · unfold maxInt32 at hhi; unfold maxInt64; omega
  constructor
  · intro hv
    simp only [List.mem_cons, List.mem_singleton, List.not_mem_nil, or_false] at hv
    rcases hv with h | h | h | h | h <;> subst h <;>
      simp [IntNode.Get, FloatNode.Get, heval, float32OfInt, float64OfInt, float64OfFloat32,
        hexact, h53, h64]
  · rintro (⟨b, h⟩ | ⟨str, h⟩) <;> subst h <;> simp [IntNode.Get, FloatNode.Get, heval]

theorem numeric_get_accepts_seven :
    (IntNode.Get (sampleNative someText 0) (sampleJson (.float32 (float32OfInt 7)))
        (fun _ => 0) 0 sampleNode 1 = (7, []) ∧
      FloatNode.Get (sampleNative someText 0) (sampleJson (.float32 (float32OfInt 7)))
        0 sampleNode .nan = (GoFloat.finite ((7 : Int) : ℚ), [])) ∧
    (IntNode.Get (sampleNative someText 0) (sampleJson (.string "7"))
        (fun _ => 0) 0 sampleNode 1 = (1, [⟨sampleNode.handle, .string "7"⟩]) ∧
      FloatNode.Get (sampleNative someText 0) (sampleJson (.string "7"))
        0 sampleNode .nan = (.nan, [⟨sampleNode.handle, .string "7"⟩])) :=
  ⟨(numeric_get_accepts_five_forms (sampleNative someText 0)
      (sampleJson (.float32 (float32OfInt 7))) (fun _ => 0) 0 sampleNode 7 1 .nan
      (.float32 (float32OfInt 7)) (by decide) (by decide) (by decide) rfl).1 (by simp),
   (numeric_get_accepts_five_forms (sampleNative someText 0)
      (sampleJson (.string "7")) (fun _ => 0) 0 sampleNode 7 1 .nan
      (.string "7") (by decide) (by decide) (by decide) rfl).2 (Or.inr ⟨"7", rfl⟩)⟩

/-- C3: after a successful evaluation to `v`, `EnumNode.Get` returns `v` without
a log call exactly when `v` is a non-empty string that belongs to the allowed
values; in every other case (not a string, the empty string even if allowed, a
string that is not allowed) it makes exactly one value-error log call and
returns the fallback. -/
theorem enum_get_member_or_fallback {σ : Type} (c : Native σ) (json : Json) (s : σ)
    (allowedValues : List String) (node : Node) (fallback : String) (v : GoAny)
    (heval : node.Evaluate c json s = .ok v) :
    (∀ str, v = .string str → str ≠ "" → str ∈ allowedValues →
      EnumNode.Get c json s allowedValues node fallback = (str, [])) ∧
    ((¬ ∃ str, v = .string str ∧ str ≠ "" ∧ str ∈ allowedValues) →
      ∃ call, call.handle = node.handle ∧
        EnumNode.Get c json s allowedValues node fallback = (fallback, [call])) ∧
    ((EnumNode.Get c json s allowedValues node fallback).2 = [] ↔
      ∃ str, v = .string str ∧ str ≠ "" ∧ str ∈ allowedValues) := by
  refine ⟨?_, ?_, ?_⟩
  · intro str hv hne hmem
    subst hv
    simp [EnumNode.Get, heval, hne, hmem]
  · intro hnot
    cases v with
    | string str =>
      have h : str = "" ∨ str ∉ allowedValues := by
        by_contra hc
        push_neg at hc
        exact hnot ⟨str, rfl, hc.1, hc.2⟩
      refine ⟨⟨node.handle, .string str⟩, rfl, ?_⟩
      rcases h with h | h <;> simp [EnumNode.Get, heval, h]
    | _ => exact ⟨⟨node.handle, .string ""⟩, rfl, by simp [EnumNode.Get, heval]⟩
  · cases v with
    | string str =>
      by_cases h1 : str = ""
      · simp [EnumNode.Get, heval, h1]
      · by_cases h2 : str ∈ allowedValues <;> simp [EnumNode.Get, heval, h1, h2]
    | _ => simp [EnumNode.Get, heval]

theorem enum_get_sample :
    EnumNode.Get (sampleNative someText 0) (sampleJson (.string "B")) 0 ["A", "B"]
        sampleNode "A" = ("B", []) ∧
    (∃ call, call.handle = sampleNode.handle ∧
      EnumNode.Get (sampleNative someText 0) (sampleJson (.string "C")) 0 ["A", "B"]
        sampleNode "A" = ("A", [call])) ∧
    (∃ call, call.handle = sampleNode.handle ∧
      EnumNode.Get (sampleNative someText 0) (sampleJson (.string "")) 0 ["A", "B", ""]
        sampleNode "A" = ("A", [call])) :=
  ⟨(enum_get_member_or_fallback (sampleNative someText 0) (sampleJson (.string "B")) 0
      ["A", "B"] sampleNode "A" (.string "B") rfl).1 "B" rfl (by decide) (by decide),
   (enum_get_member_or_fallback (sampleNative someText 0) (sampleJson (.string "C")) 0
      ["A", "B"] sampleNode "A" (.string "C") rfl).2.1 (by simp),
   (enum_get_member_or_fallback (sampleNative someText 0) (sampleJson (.string "")) 0
      ["A", "B", ""] sampleNode "A" (.string "") rfl).2.1 (by simp)⟩

end Hypertune

namespace Hypertune

/-- C4: after a successful evaluation to `v` (the absent value of an empty
buffer included), `BoolNode.Get` returns `v` without a log call exactly when
`v` is a boolean and `StringNode.Get` returns `v` without a log call exactly
when `v` is a string; otherwise each makes exactly one value-error log call
and returns the fallback. -/
theorem bool_string_get_exact_type {σ : Type} (c : Native σ) (json : Json) (s : σ)
    (node : Node) (fb : Bool) (fs : String) (v : GoAny)
    (heval : node.Evaluate c json s = .ok v) :
    (∀ b, v = .bool b → BoolNode.Get c json s node fb = (b, [])) ∧
    ((¬ ∃ b, v = .bool b) →
      ∃ call, call.handle = node.handle ∧ BoolNode.Get c json s node fb = (fb, [call])) ∧
    ((BoolNode.Get c json s node fb).2 = [] ↔ ∃ b, v = .bool b) ∧
    (∀ str, v = .string str → StringNode.Get c json s node fs = (str, [])) ∧
    ((¬ ∃ str, v = .string str) →
      ∃ call, call.handle = node.handle ∧ StringNode.Get c json s node fs = (fs, [call])) ∧
    ((StringNode.Get c json s node fs).2 = [] ↔ ∃ str, v = .string str) := by
  refine ⟨?_, ?_, ?_, ?_, ?_, ?_⟩
  · intro b hv
    subst hv
    simp [BoolNode.Get, heval]
  · intro hnot
    refine ⟨⟨node.handle, v⟩, rfl, ?_⟩
    cases v with
    | bool b => exact absurd ⟨b, rfl⟩ hnot
    | _ => simp [BoolNode.Get, heval]
  · cases v <;> simp [BoolNode.Get, heval]
  · intro str hv
    subst hv
    simp [StringNode.Get, heval]
  · intro hnot
    cases v with
    | string str => exact absurd ⟨str, rfl⟩ hnot
    | _ => exact ⟨⟨node.handle, .string ""⟩, rfl, by simp [StringNode.Get, heval]⟩
  · cases v <;> simp [StringNode.Get, heval]

/-- An evaluate result with an empty buffer. -/
theorem evaluate_empty_buffer_is_nil :
    sampleNode.Evaluate (sampleNative { error := false, value := none, length := 0 } 0)
      rejectingJson 0 = .ok .nil := rfl

theorem bool_string_get_on_absent :
    (∃ call, call.handle = sampleNode.handle ∧
      BoolNode.Get (sampleNative { error := false, value := none, length := 0 } 0)
        rejectingJson 0 sampleNode true = (true, [call])) ∧
    (∃ call, call.handle = sampleNode.handle ∧
      StringNode.Get (sampleNative { error := false, value := none, length := 0 } 0)
        rejectingJson 0 sampleNode "x" = ("x", [call])) :=
  ⟨(bool_string_get_exact_type (sampleNative { error := false, value := none, length := 0 } 0)
      rejectingJson 0 sampleNode true "x" .nil rfl).2.1 (by simp),
   (bool_string_get_exact_type (sampleNative { error := false, value := none, length := 0 } 0)
      rejectingJson 0 sampleNode true "x" .nil rfl).2.2.2.2.1 (by simp)⟩

/-- C5: after a successful evaluation to `v`, `VoidNode.Get` makes no
value-error log call if `v` is the boolean `true`, and exactly one such call if
`v` is `false` or is not a boolean at all. -/
theorem void_get_logs_unless_true {σ : Type} (c : Native σ) (json : Json) (s : σ)
    (node : Node) (v : GoAny) (heval : node.Evaluate c json s = .ok v) :
    (v = .bool true → VoidNode.Get c json s node = []) ∧
    (v ≠ .bool true → ∃ call, call.handle = node.handle ∧
      VoidNode.Get c json s node = [call]) := by
  constructor
  · intro hv
    subst hv
    simp [VoidNode.Get, heval]
  · intro hne
    cases v with
    | bool b =>
      cases b with
      | true => exact absurd rfl hne
      | false => exact ⟨⟨node.handle, .bool false⟩, rfl, by simp [VoidNode.Get, heval]⟩
    | _ => exact ⟨⟨node.handle, .bool false⟩, rfl, by simp [VoidNode.Get, heval]⟩

theorem void_get_sample :
    VoidNode.Get (sampleNative someText 0) (sampleJson (.bool true)) 0 sampleNode = [] ∧
    (∃ call, call.handle = sampleNode.handle ∧
      VoidNode.Get (sampleNative someText 0) (sampleJson (.bool false)) 0 sampleNode = [call]) :=
  ⟨(void_get_logs_unless_true (sampleNative someText 0) (sampleJson (.bool true)) 0
      sampleNode (.bool true) rfl).1 rfl,
   (void_get_logs_unless_true (sampleNative someText 0) (sampleJson (.bool false)) 0
      sampleNode (.bool false) rfl).2 (by simp)⟩

end Hypertune

/-! ## Iteration and navigation -/

namespace Hypertune

theorem cursorResult_succ {σ : Type} (c : Native σ) (id : Nat) (s : σ) (i : Nat) :
    cursorResult c id s (i + 1) = cursorResult c id (c.node_iterator_next s id).2 i := rfl

theorem loop_collect {σ : Type} (c : Native σ) (id : Nat) :
    ∀ (N : Nat) (s : σ) (acc : List Node),
      (∀ i, i < N → (cursorResult c id s i).ends = false) →
      (cursorResult c id s N).ends = true →
      ∀ fuel, N < fuel →
        newNodeIterator.loop c id collect fuel s acc =
          some (cursorState c id s (N + 1),
            acc ++ (List.range N).map (fun i => newNode (cursorResult c id s i).node)) := by
  intro N
  induction N with
  | zero =>
    intro s acc _ hend fuel hfuel
    obtain ⟨f, rfl⟩ : ∃ f, fuel = f + 1 := ⟨fuel - 1, by omega⟩
    simp only [cursorResult, cursorState, NodeIteratorNextResult.ends, Bool.or_eq_true,
      beq_iff_eq] at hend
    rcases hend with h | h
    · simp [newNodeIterator.loop, h, cursorState]
    · by_cases hs : (c.node_iterator_next s id).1.state = .NodeIteratorStateConsumed
      · simp [newNodeIterator.loop, hs, cursorState]
      · simp [newNodeIterator.loop, hs, h, cursorState]
  | succ N ih =>
    intro s acc hgood hend fuel hfuel
    obtain ⟨f, rfl⟩ : ∃ f, fuel = f + 1 := ⟨fuel - 1, by omega⟩
    have h0 := hgood 0 (Nat.succ_pos N)
    simp only [cursorResult, cursorState, NodeIteratorNextResult.ends, Bool.or_eq_false_iff,
      beq_eq_false_iff_ne, ne_eq] at h0
    have hrec := ih (c.node_iterator_next s id).2
      (acc ++ [newNode (c.node_iterator_next s id).1.node])
      (fun i hi => by rw [← cursorResult_succ]; exact hgood (i + 1) (by omega))
      (by rw [← cursorResult_succ]; exact hend) f (by omega)
    rw [newNodeIterator.loop]
    simp only [h0.1, h0.2, if_false, collect, Bool.not_true, Bool.false_eq_true]
    rw [show (acc ++ [newNode (c.node_iterator_next s id).1.node]) =
      (collect acc (newNode (c.node_iterator_next s id).1.node)).1 from rfl] at hrec
    simp only [collect] at hrec
    rw [hrec]
    simp [List.range_succ_eq_map, cursorResult_succ, cursorState, cursorResult, Function.comp_def]

/-- C6: run against a consumer that never stops early, the sequence of
`GetItems` yields nothing when the get-items result carries the error flag;
otherwise, if the `N`-th next-result (from 0) is the first that is consumed or
error-flagged, then with enough fuel the iteration terminates having yielded,
in cursor order, exactly the `N` nodes built from the next-results before it. -/
theorem getItems_yields_leading_results {σ : Type} (c : Native σ) (n : Node) (s : σ) :
    ((c.node_get_items s n.handle).error = true →
      ∀ fuel, n.GetItems c collect fuel s [] = some (s, [])) ∧
    ((c.node_get_items s n.handle).error = false →
      ∀ N, (∀ i, i < N → (cursorResult c (c.node_get_items s n.handle).id s i).ends = false) →
        (cursorResult c (c.node_get_items s n.handle).id s N).ends = true →
        ∀ fuel, N < fuel →
          ∃ nodes, n.GetItems c collect fuel s [] =
              some (cursorState c (c.node_get_items s n.handle).id s (N + 1), nodes) ∧
            nodes = (List.range N).map
              (fun i => newNode (cursorResult c (c.node_get_items s n.handle).id s i).node) ∧
            nodes.length = N) := by
  constructor
  · intro herr fuel
    simp [Node.GetItems, newNodeIterator, herr]
  · intro herr N hgood hend fuel hfuel
    refine ⟨_, ?_, rfl, by simp⟩
    have h := loop_collect c (c.node_get_items s n.handle).id N s [] hgood hend fuel hfuel
    simpa [Node.GetItems, newNodeIterator, herr] using h

theorem getItems_two_then_consumed :
    ∃ nodes, sampleNode.GetItems (sampleNative someText 2) collect 3 0 [] =
        some (cursorState (sampleNative someText 2)
          ((sampleNative someText 2).node_get_items 0 sampleNode.handle).id 0 (2 + 1), nodes) ∧
      nodes = (List.range 2).map (fun i => newNode (cursorResult (sampleNative someText 2)
        ((sampleNative someText 2).node_get_items 0 sampleNode.handle).id 0 i).node) ∧
      nodes.length = 2 :=
  (getItems_yields_leading_results (sampleNative someText 2) sampleNode 0).2 rfl 2
    (by decide) (by decide) 3 (by decide)

end Hypertune

namespace Hypertune

/-- C8 as stated fails: when the arguments are a function value, which
`encoding/json` cannot encode, `GetField` does not return a node, it panics. -/
theorem getField_panics_on_unencodable :
    (¬ ∃ node, sampleNode.GetField (sampleNative someText 0) (sampleJson .nil) 0 "flag"
        (.other "func()") = .ret node) ∧
    sampleNode.GetField (sampleNative someText 0) (sampleJson .nil) 0 "flag"
        (.other "func()") =
      .panic "failed to field marshal arguments for field flag: json: unsupported type: func()" := by
  constructor
  · rintro ⟨node, h⟩
    simp [Node.GetField, sampleJson] at h
  · rfl

/-- C8, amended: `GetFieldWithJSONArguments` always returns a node, whose error
flag is the flag of the native result; `GetField` returns that same node
whenever its arguments encode as JSON, and panics (rather than returning a
flagged node) exactly when they do not. -/
theorem getField_returns_unless_unencodable {σ : Type} (c : Native σ) (json : Json) (s : σ)
    (n : Node) (field : String) (arguments : GoAny) :
    (∀ argumentsJSON,
      (n.GetFieldWithJSONArguments c s field argumentsJSON).error =
          (c.node_get_field s n.handle field argumentsJSON).error ∧
        (n.GetFieldWithJSONArguments c s field argumentsJSON).handle =
          (c.node_get_field s n.handle field argumentsJSON).id) ∧
    (∀ argumentsJSON, json.Marshal arguments = .ok argumentsJSON →
      n.GetField c json s field arguments =
        .ret (n.GetFieldWithJSONArguments c s field argumentsJSON)) ∧
    ((∃ msg, n.GetField c json s field arguments = .panic msg) ↔
      ∃ err, json.Marshal arguments = .error err) := by
  refine ⟨?_, ?_, ?_⟩
  · intro argumentsJSON
    unfold Node.GetFieldWithJSONArguments newNode
    cases (c.node_get_field s n.handle field argumentsJSON).error <;> simp
  · intro argumentsJSON h
    simp [Node.GetField, h]
  · cases h : json.Marshal arguments <;> simp [Node.GetField, h]

theorem getField_sample :
    sampleNode.GetField (sampleNative someText 0) (sampleJson .nil) 0 "flag" (.bool true) =
      .ret (sampleNode.GetFieldWithJSONArguments (sampleNative someText 0) 0 "flag" "null") :=
  (getField_returns_unless_unencodable (sampleNative someText 0) (sampleJson .nil) 0
    sampleNode "flag" (.bool true)).2.1 "null" rfl

end Hypertune

/-! ## Options -/

namespace Hypertune

theorem get_set_same (m : ConfigMap) (key : String) (value : ConfigValue) :
    (m.set key value).get key = some value := by
  induction m with
  | nil => simp [ConfigMap.set, ConfigMap.get]
  | cons e rest ih =>
    obtain ⟨k, v⟩ := e
    by_cases h : k = key <;> simp [ConfigMap.set, ConfigMap.get, h, ih]

theorem get_set_ne (m : ConfigMap) (key other : String) (value : ConfigValue)
    (hne : key ≠ other) : (m.set key value).get other = m.get other := by
  induction m with
  | nil => simp [ConfigMap.set, ConfigMap.get, hne]
  | cons e rest ih =>
    obtain ⟨k, v⟩ := e
    by_cases h : k = key
    · subst h
      simp [ConfigMap.set, ConfigMap.get, hne]
    · by_cases h2 : k = other
      · subst h2
        simp [ConfigMap.set, ConfigMap.get, h]
      · simp [ConfigMap.set, ConfigMap.get, h, h2, ih]

theorem foldl_options (calls : List WithCall) :
    ((calls.map WithCall.toOption).foldl (fun options option => option options)
        ({} : sdkOptions)) =
      { BranchName := lastArg WithCall.branchName? calls
        InitDataRefreshInterval := lastArg WithCall.initDataRefreshInterval? calls
        LogsFlushInterval := lastArg WithCall.logsFlushInterval? calls
        EdgeBaseURL := lastArg WithCall.edgeBaseURL? calls
        RemoteLoggingBaseURL := lastArg WithCall.remoteLoggingBaseURL? calls } := by
  induction calls using List.reverseRecOn with
  | nil => rfl
  | append_singleton l a ih =>
    rw [List.map_append, List.foldl_append, ih]
    cases a <;>
      simp [lastArg, WithCall.toOption, WithBranchName, WithInitDataRefreshInterval,
        WithLogsFlushInterval, WithEdgeBaseURL, WithRemoteLoggingBaseURL,
        WithCall.branchName?, WithCall.initDataRefreshInterval?, WithCall.logsFlushInterval?,
        WithCall.edgeBaseURL?, WithCall.remoteLoggingBaseURL?]

end Hypertune

namespace Hypertune

/-- C7: for every list of calls of the five option constructors, the map
`parseOptions` returns has `language` = `go`, and holds each of `branch_name`,
`init_data_refresh_interval_ms`, `logs_flush_interval_ms`, `edge_base_url` and
`remote_logging_base_url` exactly when the matching constructor occurs in the
list, with the argument of its last occurrence; an interval is stored as the
duration divided by one millisecond. -/
theorem parseOptions_keys (calls : List WithCall) :
    (parseOptions (calls.map WithCall.toOption)).get "language" = some (.string "go") ∧
    (parseOptions (calls.map WithCall.toOption)).get "branch_name" =
      (lastArg WithCall.branchName? calls).map ConfigValue.string ∧
    (parseOptions (calls.map WithCall.toOption)).get "init_data_refresh_interval_ms" =
      (lastArg WithCall.initDataRefreshInterval? calls).map
        (fun d => ConfigValue.duration (Int.tdiv d 1000000)) ∧
    (parseOptions (calls.map WithCall.toOption)).get "logs_flush_interval_ms" =
      (lastArg WithCall.logsFlushInterval? calls).map
        (fun d => ConfigValue.duration (Int.tdiv d 1000000)) ∧
    (parseOptions (calls.map WithCall.toOption)).get "edge_base_url" =
      (lastArg WithCall.edgeBaseURL? calls).map ConfigValue.string ∧
    (parseOptions (calls.map WithCall.toOption)).get "remote_logging_base_url" =
      (lastArg WithCall.remoteLoggingBaseURL? calls).map ConfigValue.string := by
  unfold parseOptions
  rw [foldl_options]
  cases lastArg WithCall.branchName? calls <;>
  cases lastArg WithCall.initDataRefreshInterval? calls <;>
  cases lastArg WithCall.logsFlushInterval? calls <;>
  cases lastArg WithCall.edgeBaseURL? calls <;>
  cases lastArg WithCall.remoteLoggingBaseURL? calls <;>
  simp [ConfigMap.set, ConfigMap.get, language, Duration.div, Millisecond]

/-- An option that occurs is the last argument of some call, and conversely. -/
theorem lastArg_isSome_iff {α : Type} (pick : WithCall → Option α) (calls : List WithCall) :
    (lastArg pick calls).isSome ↔ ∃ call ∈ calls, (pick call).isSome := by
  simp [lastArg, List.findSome?_isSome_iff]

end Hypertune

/-! ## Codegen command -/

namespace Gen

theorem searchGoMod_reads (env : Env) :
    ∀ (rev : List String) (fileContent : Option String) (e : Effect),
      e ∈ (searchGoMod env rev fileContent).1 → ∃ path, e = .readFile path := by
  intro rev
  induction rev with
  | nil => intro fileContent e h; simp [searchGoMod] at h
  | cons x parent ih =>
    intro fileContent e h
    unfold searchGoMod at h
    cases herr : (env.ReadFile (goModPath (x :: parent))).err with
    | none =>
      simp only [herr, List.mem_singleton] at h
      exact ⟨_, h⟩
    | some err =>
      simp only [herr, List.mem_cons] at h
      rcases h with h | h
      · exact ⟨_, h⟩
      · exact ih _ e h

theorem searchGoMod_found (env : Env) :
    ∀ (rev : List String) (fileContent : Option String) (j : Nat), j < rev.length →
      (env.ReadFile (goModPath (rev.drop j))).err = none →
      (∀ i, i < j → (env.ReadFile (goModPath (rev.drop i))).err ≠ none) →
      searchGoMod env rev fileContent =
        ((List.range (j + 1)).map (fun i => Effect.readFile (goModPath (rev.drop i))),
          rev.drop j, (env.ReadFile (goModPath (rev.drop j))).data) := by
  intro rev
  induction rev with
  | nil => intro fileContent j hj; simp at hj
  | cons x parent ih =>
    intro fileContent j hj hok hbad
    cases j with
    | zero =>
      simp only [List.drop_zero] at hok
      simp [searchGoMod, hok, List.range_succ]
    | succ j =>
      have h0 := hbad 0 (Nat.succ_pos j)
      simp only [List.drop_zero] at h0
      obtain ⟨err, herr⟩ := Option.ne_none_iff_exists'.mp h0
      have hrec := ih (env.ReadFile (goModPath (x :: parent))).data j
        (by simpa using hj) (by simpa using hok)
        (fun i hi => by simpa using hbad (i + 1) (by omega))
      rw [searchGoMod]
      simp only [herr, hrec]
      simp [List.range_succ_eq_map, Function.comp_def]

theorem searchGoMod_none (env : Env) :
    ∀ (rev : List String),
      (∀ i, i < rev.length → (env.ReadFile (goModPath (rev.drop i))).data = none ∧
        (env.ReadFile (goModPath (rev.drop i))).err ≠ none) →
      (searchGoMod env rev none).2.2 = none := by
  intro rev
  induction rev with
  | nil => intro _; rfl
  | cons x parent ih =>
    intro h
    have h0 := h 0 (by simp)
    simp only [List.drop_zero] at h0
    obtain ⟨err, herr⟩ := Option.ne_none_iff_exists'.mp h0.2
    have hrec := ih (fun i hi => by simpa using h (i + 1) (by simpa using hi))
    rw [searchGoMod]
    simp only [herr, h0.1]
    exact hrec

end Gen

namespace Gen

theorem parseSdkVersion_reads (env : Env) (flags : Flags) (e : Effect)
    (h : e ∈ (parseSdkVersion env flags).1) : ∃ path, e = .readFile path := by
  unfold parseSdkVersion at h
  split at h
  · simp at h
  · split at h
    · simp at h
    · rename_i wd _
      have key := searchGoMod_reads env wd.reverse none e
      rcases hs : searchGoMod env wd.reverse none with ⟨effects, dir, fileContent⟩
      rw [hs] at key
      simp only [hs] at h
      apply key
      split at h
      · exact h
      · split at h
        · exact h
        · split at h <;> exact h

theorem writeFiles_no_request (env : Env) (flags : Flags) :
    ∀ (files : List CodegenFile) (req : CodegenRequest),
      Effect.httpGet req ∉ (writeFiles env flags files).1 := by
  intro files
  induction files with
  | nil => intro req; simp [writeFiles]
  | cons f rest ih =>
    intro req
    have hrest := ih req
    rw [writeFiles]
    dsimp only
    repeat' split
    all_goals simp [hrest]

theorem doCodegenRequest_request (env : Env) (flags : Flags) (codegenUrl : String)
    (query : Option String) (req : CodegenRequest)
    (h : Effect.httpGet req ∈ (doCodegenRequest env flags codegenUrl query).1) :
    req = codegenRequest flags codegenUrl query := by
  simp only [doCodegenRequest] at h
  split at h
  · simp at h
  · simpa using h
  · split at h
    · simpa using h
    · split at h <;> simpa using h

theorem doCodegenRequest_version (env : Env) (flags : Flags) (codegenUrl : String)
    (query : Option String) (req : CodegenRequest)
    (h : Effect.httpGet req ∈ (doCodegenRequest env flags codegenUrl query).1) :
    req.body.sdkVersion = flags.sdkVersion := by
  rw [doCodegenRequest_request env flags codegenUrl query req h]
  rfl

theorem doCodegenRequest_sends (env : Env) (flags : Flags) (codegenUrl : String)
    (query : Option String)
    (h : ∀ err, env.http (codegenRequest flags codegenUrl query) ≠ .initError err) :
    Effect.httpGet (codegenRequest flags codegenUrl query) ∈
      (doCodegenRequest env flags codegenUrl query).1 := by
  simp only [doCodegenRequest]
  split
  · rename_i err heq
    exact absurd heq (h err)
  · simp
  · split
    · simp
    · split <;> simp

theorem run_request_version (env : Env) (flags resolved : Flags) (e1 : List Effect)
    (hparse : parseSdkVersion env flags = (e1, .ok resolved)) (req : CodegenRequest)
    (h : Effect.httpGet req ∈ (run env flags).1) :
    req.body.sdkVersion = resolved.sdkVersion := by
  have hreads : ∀ e ∈ e1, ∃ path, e = Effect.readFile path := by
    intro e he
    apply parseSdkVersion_reads env flags e
    rw [hparse]; exact he
  have hno1 : Effect.httpGet req ∉ e1 := by
    intro hin
    obtain ⟨path, hp⟩ := hreads _ hin
    cases hp
  unfold run at h
  split at h
  · simp at h
  · split at h
    · simp at h
    · rw [hparse] at h
      simp only at h
      have hq : ∀ (o : List Effect × Except String (Option String)),
          o = (if resolved.queryFilePath ≠ "" then
            match (env.ReadFile resolved.queryFilePath).err with
            | some err => ([Effect.readFile resolved.queryFilePath], Except.error err)
            | none => ([Effect.readFile resolved.queryFilePath],
                Except.ok (some ((env.ReadFile resolved.queryFilePath).data.getD "")))
          else ([], Except.ok none)) → Effect.httpGet req ∉ o.1 := by
        intro o ho
        subst ho
        split
        · split <;> simp
        · simp
      generalize hgen : (if resolved.queryFilePath ≠ "" then
            match (env.ReadFile resolved.queryFilePath).err with
            | some err => ([Effect.readFile resolved.queryFilePath], Except.error err)
            | none => ([Effect.readFile resolved.queryFilePath],
                Except.ok (some ((env.ReadFile resolved.queryFilePath).data.getD "")))
          else ([], Except.ok none)) = o at h
      have hno2 := hq o hgen.symm
      rcases o with ⟨e2, r2⟩
      simp only at hno2
      cases r2 with
      | error err => simp [hno1, hno2] at h
      | ok query =>
        simp only at h
        split at h
        · simp [hno1, hno2] at h
        · rcases hd : doCodegenRequest env resolved resolved.edgeBaseURL query with ⟨e3, r3⟩
          have hv := doCodegenRequest_version env resolved resolved.edgeBaseURL query req
          rw [hd] at hv h
          simp only at hv
          cases r3 with
          | error err =>
            simp only [List.mem_append] at h
            rcases h with (h | h) | h
            · exact absurd h hno1
            · exact absurd h hno2
            · exact hv h
          | ok response =>
            simp only at h
            have hno4 := writeFiles_no_request env resolved response.Files req
            split at h
            · simp only [List.mem_append, List.mem_singleton] at h
              rcases h with ((h | h) | h) | h
              · exact absurd h hno1
              · exact absurd h hno2
              · exact hv h
              · cases h
            · rcases hw : writeFiles env resolved response.Files with ⟨e4, r4⟩
              rw [hw] at h hno4
              simp only at hno4
              cases r4 with
              | some err =>
                simp only [List.mem_append, List.mem_singleton] at h
                rcases h with (((h | h) | h) | h) | h
                · exact absurd h hno1
                · exact absurd h hno2
                · exact hv h
                · cases h
                · exact absurd h hno4
              | none =>
                simp only [List.mem_append, List.mem_singleton, List.mem_map] at h
                rcases h with ((((h | h) | h) | h) | h) | h
                · exact absurd h hno1
                · exact absurd h hno2
                · exact hv h
                · cases h
                · exact absurd h hno4
                · obtain ⟨m, _, hm⟩ := h
                  cases hm

end Gen

namespace Gen

theorem run_of_parse_error (env : Env) (flags : Flags) (e : List Effect) (err : String)
    (hparse : parseSdkVersion env flags = (e, .error err)) :
    (∃ msg, (run env flags).2 = some msg) ∧
    (∀ req, Effect.httpGet req ∉ (run env flags).1) ∧
    (flags.outputFileDir ≠ "" → flags.packageName ≠ "" →
      run env flags = (e, some ("failed to parse sdk version: " ++ err))) := by
  have hreads : ∀ x ∈ e, ∃ path, x = Effect.readFile path := by
    intro x hx
    apply parseSdkVersion_reads env flags x
    rw [hparse]; exact hx
  have hrun : flags.outputFileDir ≠ "" → flags.packageName ≠ "" →
      run env flags = (e, some ("failed to parse sdk version: " ++ err)) := by
    intro h1 h2
    simp [run, h1, h2, hparse]
  by_cases h1 : flags.outputFileDir = ""
  · refine ⟨⟨"outputFileDir must be specified", by simp [run, h1]⟩,
      fun req => by simp [run, h1], fun h => absurd h1 h⟩
  · by_cases h2 : flags.packageName = ""
    · refine ⟨⟨"packageName must be specified", by simp [run, h1, h2]⟩,
        fun req => by simp [run, h1, h2], fun _ h => absurd h2 h⟩
    · refine ⟨⟨_, by rw [hrun h1 h2]⟩, fun req => ?_, hrun⟩
      rw [hrun h1 h2]
      intro hin
      obtain ⟨path, hp⟩ := hreads _ hin
      cases hp

/-- What holds of the version resolution when every failed read returns no
data: `parseSdkVersion` keeps a non-empty explicit `sdkVersion` and reads no
file.  Otherwise, when directory number `j` on the way up from the working
directory (never the root) is the first whose `go.mod` can be read, and its
parse requires `github.com/hypertunehq/hypertune-go`, the version becomes that
requirement's version without a leading `v`, and every request `run` sends
carries it.  When no `go.mod` exists on the way up, or the nearest one does not
require the module, `parseSdkVersion` returns an error; and whenever it returns
an error, `run` returns an error (that one, wrapped) and sends no request. -/
theorem sdkVersion_resolution (env : Env) (flags : Flags) :
    (flags.sdkVersion ≠ "" → parseSdkVersion env flags = ([], .ok flags)) ∧
    (flags.sdkVersion = "" → ∀ wd j content mod r, env.Getwd = .ok wd → j < wd.length →
      (env.ReadFile (goModPath (wd.reverse.drop j))).err = none →
      (∀ i, i < j → (env.ReadFile (goModPath (wd.reverse.drop i))).err ≠ none) →
      (env.ReadFile (goModPath (wd.reverse.drop j))).data = some content →
      env.modfileParse content = .ok mod →
      mod.Require.find? (fun r => r.Path == hypertuneGoPath) = some r →
      parseSdkVersion env flags =
          ((List.range (j + 1)).map (fun i => Effect.readFile (goModPath (wd.reverse.drop i))),
            .ok { flags with sdkVersion := trimPrefixV r.Version }) ∧
        ∀ req, Effect.httpGet req ∈ (run env flags).1 →
          req.body.sdkVersion = trimPrefixV r.Version) ∧
    (flags.sdkVersion = "" → ∀ wd, env.Getwd = .ok wd →
      ((∀ i, i < wd.length → (env.ReadFile (goModPath (wd.reverse.drop i))).data = none ∧
          (env.ReadFile (goModPath (wd.reverse.drop i))).err ≠ none) ∨
        (∃ j content mod, j < wd.length ∧
          (env.ReadFile (goModPath (wd.reverse.drop j))).err = none ∧
          (∀ i, i < j → (env.ReadFile (goModPath (wd.reverse.drop i))).err ≠ none) ∧
          (env.ReadFile (goModPath (wd.reverse.drop j))).data = some content ∧
          env.modfileParse content = .ok mod ∧
          mod.Require.find? (fun r => r.Path == hypertuneGoPath) = none)) →
      ∃ err, (parseSdkVersion env flags).2 = .error err) ∧
    (∀ e err, parseSdkVersion env flags = (e, .error err) →
      (∃ msg, (run env flags).2 = some msg) ∧
      (∀ req, Effect.httpGet req ∉ (run env flags).1) ∧
      (flags.outputFileDir ≠ "" → flags.packageName ≠ "" →
        run env flags = (e, some ("failed to parse sdk version: " ++ err)))) := by
  refine ⟨?_, ?_, ?_, ?_⟩
  · intro h
    simp [parseSdkVersion, h]
  · intro hempty wd j content mod r hwd hj hok hbad hdata hmod hreq
    have hs := searchGoMod_found env wd.reverse none j (by simpa using hj) hok hbad
    have hp : parseSdkVersion env flags =
        ((List.range (j + 1)).map (fun i => Effect.readFile (goModPath (wd.reverse.drop i))),
          .ok { flags with sdkVersion := trimPrefixV r.Version }) := by
      simp [parseSdkVersion, hempty, hwd, hs, hdata, hmod, hreq]
    exact ⟨hp, fun req hin => run_request_version env flags _ _ hp req hin⟩
  · intro hempty wd hwd hcase
    rcases hcase with hnone | ⟨j, content, mod, hj, hok, hbad, hdata, hmod, hreq⟩
    · have hs := searchGoMod_none env wd.reverse (by simpa using hnone)
      rcases hsg : searchGoMod env wd.reverse none with ⟨effects, dir, fileContent⟩
      rw [hsg] at hs
      simp only at hs
      subst hs
      simp [parseSdkVersion, hempty, hwd, hsg]
    · have hs := searchGoMod_found env wd.reverse none j (by simpa using hj) hok hbad
      simp [parseSdkVersion, hempty, hwd, hs, hdata, hmod, hreq]
  · intro e err h
    exact run_of_parse_error env flags e err h

theorem sdkVersion_from_go_mod :
    parseSdkVersion sampleEnv sampleFlags =
      ([.readFile "/home/app/cmd/go.mod", .readFile "/home/app/go.mod"],
        .ok { sampleFlags with sdkVersion := "1.2.3" }) :=
  ((sdkVersion_resolution sampleEnv sampleFlags).2.1 rfl ["home", "app", "cmd"] 1
    "module app" _ ⟨hypertuneGoPath, "v1.2.3"⟩ rfl (by decide) rfl (by decide) rfl rfl rfl).1

end Gen

namespace Gen

/-- The line printed for a message never depends on the message text. -/
theorem messageLine_ignores_text (env : Env) (message : CodegenMessage) (text : String) :
    messageLine env { message with Message := text } = messageLine env message := rfl

/-- C10 fails on the code: for the warning `flag is deprecated` without metadata
in a successful response, `run` prints the level twice, `Warn Warn`, and the
message text nowhere; the request before it carries the resolved version. -/
theorem run_prints_level_twice :
    run sampleEnv sampleFlags =
      ([.readFile "/home/app/cmd/go.mod", .readFile "/home/app/go.mod",
        .httpGet
          { edgeBaseURL := "https://edge.hypertune.com", path := "/codegen",
            body :=
              { sdkType := "go", language := "go", query := none, includeToken := false,
                includeFallback := false, sdkVersion := "1.2.3", packageName := "hypertune" },
            token := "tok", branch := "main" },
        .mkdirAll "generated",
        .print "Warn Warn\n"], none) ∧
    messageLine sampleEnv { Level := "Warn", Message := "flag is deprecated", Metadata := .nil } ≠
      "Warn flag is deprecated\n" := by
  constructor
  · decide
  · decide

/-- With a `go.mod` that does not require the SDK, `run` fails after the two
reads and sends nothing. -/
theorem run_fails_without_requirement :
    run foreignEnv sampleFlags =
      ([.readFile "/home/app/cmd/go.mod", .readFile "/home/app/go.mod"],
        some ("failed to parse sdk version: /home/app/go.mod doesn't contain " ++
          "github.com/hypertunehq/hypertune-go package")) := by
  decide

end Gen

namespace Hypertune

/-- An explicit zero interval is stored as 0; an interval that is not supplied
leaves no key; a later call overrides an earlier one. -/
theorem parseOptions_samples :
    (parseOptions [WithInitDataRefreshInterval 0]).get "init_data_refresh_interval_ms" =
      some (.duration 0) ∧
    (parseOptions [WithBranchName "dev"]).get "init_data_refresh_interval_ms" = none ∧
    (parseOptions [WithLogsFlushInterval 2500000000, WithLogsFlushInterval 1999999]).get
      "logs_flush_interval_ms" = some (.duration 1) ∧
    parseOptions [] = [("language", .string "go")] := by
  decide

end Hypertune

namespace Gen

theorem QueryEscape_sample :
    QueryEscape "a b&c" = "a+b%26c" ∧ QueryEscape "tok-1_2.3~" = "tok-1_2.3~" := by
  decide

/-- Once the version is resolved, `run` sends the request that carries it,
provided no query file is asked for, the edge URL parses and the request can
be built. -/
theorem run_sends_request (env : Env) (flags resolved : Flags) (e1 : List Effect)
    (hparse : parseSdkVersion env flags = (e1, .ok resolved))
    (hout : flags.outputFileDir ≠ "") (hpkg : flags.packageName ≠ "")
    (hquery : resolved.queryFilePath = "")
    (hurl : env.urlParse resolved.edgeBaseURL = none)
    (hhttp : ∀ err,
      env.http (codegenRequest resolved resolved.edgeBaseURL none) ≠ .initError err) :
    Effect.httpGet (codegenRequest resolved resolved.edgeBaseURL none) ∈ (run env flags).1 := by
  have hs := doCodegenRequest_sends env resolved resolved.edgeBaseURL none hhttp
  rcases hd : doCodegenRequest env resolved resolved.edgeBaseURL none with ⟨e3, r3⟩
  rw [hd] at hs
  simp only at hs
  unfold run
  simp only [hout, hpkg, if_false, hparse, hquery, ne_eq, not_true_eq_false, hurl, hd]
  cases r3 with
  | error err => simp [hs]
  | ok response =>
    simp only
    split
    · simp [hs]
    · split <;> simp [hs]

end Gen

namespace Gen

/-- C9 fails on the code: in a world where no read of a `go.mod` succeeds, so
that none is found (the only one on the way up fails after delivering some
bytes), `parseSdkVersion` does not return an error.  It tests `fileContent`
for nil instead of the read error, parses the bytes of the failed read, takes
`9.9.9` from them, and `run` sends the request with that version. -/
theorem run_accepts_failed_go_mod_read :
    (∀ path, (staleEnv.ReadFile path).err ≠ none) ∧
    parseSdkVersion staleEnv sampleFlags =
      ([.readFile "/app/go.mod"], .ok { sampleFlags with sdkVersion := "9.9.9" }) ∧
    run staleEnv sampleFlags =
      ([.readFile "/app/go.mod",
        .httpGet
          { edgeBaseURL := "https://edge.hypertune.com", path := "/codegen",
            body :=
              { sdkType := "go", language := "go", query := none, includeToken := false,
                includeFallback := false, sdkVersion := "9.9.9", packageName := "hypertune" },
            token := "tok", branch := "main" },
        .mkdirAll "generated",
        .print "Warn Warn\n"], none) := by
  refine ⟨?_, ?_, ?_⟩
  · intro path
    simp only [staleEnv]
    split <;> simp
  · rfl
  · decide

end Gen
